import Mathlib

/-!
# Verification of the Radical state-composition core (`src/radical.ts`)

A shallow embedding of the Radical library's core reduction engine:
JavaScript values are modelled by the inductive `Value` (objects as
insertion-ordered association lists of fields), and the `Action`,
`Namespace`, `CollectionAction`/`CollectionNamespace` reduce algorithms,
the initiator/dispatch path and the mount/unmount bookkeeping are
translated function by function from the TypeScript source.  A separate
small heap model (`HVal`/`Heap`) captures the in-place mutation performed
by the default reducer, which a purely functional embedding cannot see.
-/

namespace Radical

/-- A JavaScript value: `undefined`, `null`, booleans, (integer) numbers,
strings, or objects.  An object is its list of own enumerable fields in
insertion order, matching `for (key in obj)` enumeration order for the
string keys used throughout the library. -/
inductive Value where
  | undefined : Value
  | null : Value
  | bool : Bool → Value
  | num : Int → Value
  | str : String → Value
  | obj : List (String × Value) → Value
deriving Repr

/-- JavaScript truthiness (`if (x)`): `undefined`, `null`, `false`, `0`
and `""` are falsy, everything else (objects included) is truthy. -/
def truthy : Value → Bool
  | .undefined => false
  | .null => false
  | .bool b => b
  | .num n => n != 0
  | .str s => s != ""
  | .obj _ => true

/-- Truthiness of an optional string slot, e.g. `if (stateLocation)`:
an absent value (`undefined`) and the empty string are falsy. -/
def strTruthy : Option String → Bool
  | none => false
  | some s => s != ""

/-- Field lookup in an association list (first occurrence wins, as in a
JavaScript object, whose keys are unique). -/
def getA {α : Type} : List (String × α) → String → Option α
  | [], _ => none
  | (k', v') :: rest, k => if k' = k then some v' else getA rest k

/-- Property assignment `o[k] = v` on an association list: an existing
key keeps its position and gets the new value, a fresh key is appended. -/
def setA {α : Type} : List (String × α) → String → α → List (String × α)
  | [], k, v => [(k, v)]
  | (k', v') :: rest, k, v =>
      if k' = k then (k', v) :: rest else (k', v') :: setA rest k v

/-- Property deletion `delete o[k]` on an association list. -/
def delA {α : Type} (l : List (String × α)) (k : String) : List (String × α) :=
  l.filter (fun kv => kv.1 ≠ k)

/-- Property read `v[k]`: field lookup on an object (`undefined` when the
key is absent), `undefined` on primitives.  (String index access such as
`"ab"["0"]` is not used by the library with the non-numeric keys that
occur here.) -/
def getField (v : Value) (k : String) : Value :=
  match v with
  | .obj fs => (getA fs k).getD .undefined
  | _ => .undefined

/-- Property write `v[k] = x`: updates an object's field; on a primitive
the assignment is a silent no-op (non-strict mode). -/
def setField (v : Value) (k : String) (x : Value) : Value :=
  match v with
  | .obj fs => .obj (setA fs k x)
  | _ => v

/-- Property deletion `delete v[k]`. -/
def delField (v : Value) (k : String) : Value :=
  match v with
  | .obj fs => .obj (delA fs k)
  | _ => v

/-- Copy loop `for (key in src) dst[key] = src[key]` starting from `dst`. -/
def copyInto (dst : List (String × Value)) (src : List (String × Value)) :
    List (String × Value) :=
  src.foldl (fun acc kv => setA acc kv.1 kv.2) dst

/-- Shallow copy `let newState = {}; for (let key in state) newState[key] = state[key]`:
the shallow copy performed by `Namespace.reduce`.  On an object it copies
the fields; on a string, `for..in` enumerates the character indices; on
other primitives `for..in` yields nothing, leaving `{}`. -/
def shallowCopy : Value → Value
  | .obj fs => .obj (copyInto [] fs)
  | .str s => .obj (s.data.enum.map fun ic => (toString ic.1, .str (String.mk [ic.2])))
  | _ => .obj []

/-- The tag `message.type`, `undefined` when the message has no `type` field. -/
def msgType (m : Value) : Value := getField m "type"

/-- Loose equality `v == s` of a value against a string literal: true
exactly when `v` is that string.  (JavaScript `==` would additionally
coerce a numeric string against a number; the `type`/`name` tags compared
in the library are always strings, where `==` and `===` agree.) -/
def eqStr (v : Value) (s : String) : Bool :=
  match v with
  | .str t => t == s
  | _ => false

/-- The default `Action.reducer` (radical.ts:372-380):
`for (let key in action) if (key != "type") state[key] = action[key];
return state`.  The fields are written onto the received state value
itself; this definition captures the resulting value (the aliasing
effect is modelled separately by `defaultReducerH`). -/
def defaultReducer (state action : Value) : Value :=
  match action with
  | .obj fs => fs.foldl (fun st kv => if kv.1 = "type" then st else setField st kv.1 kv.2) state
  | _ => state

/-- An `Action`'s configured `reducer` slot: a single function, an
ordered array of functions, or explicitly nulled out (`!this.reducer`). -/
inductive Reducer where
  | noRed : Reducer
  | single : (Value → Value → Value) → Reducer
  | chain : List (Value → Value → Value) → Reducer

/-- Truthiness of `this.reducer`: a function or an array is truthy. -/
def Reducer.isSet : Reducer → Bool
  | .noRed => false
  | _ => true

/-- Application of the configured reducer as in radical.ts:451-455: a
single function is called directly, an array is folded left to right
(`.reduce((s, f) => f(s, action), state)`). -/
def applyReducer : Reducer → Value → Value → Value
  | .noRed, s, _ => s
  | .single f, s, m => f s m
  | .chain fs, s, m => fs.foldl (fun st f => f st m) s

/-- The data of an `Action` relevant to reduction: its `name`,
`defaultState`, and `reducer`. -/
structure ActionData where
  name : String
  defaultState : Value := .undefined
  reducer : Reducer := .single defaultReducer

/-- The method `Action.reduce` (radical.ts:445-457): falsy state returns
`defaultState`; a message whose `type` differs from the action's name
(or a missing reducer) returns the state unchanged; otherwise the
configured reducer is applied.  (`action.type != this.name` is a loose
comparison, which on the string-typed messages used by the library
coincides with structural equality.) -/
def ActionData.reduce (a : ActionData) (state m : Value) : Value :=
  if !truthy state then a.defaultState
  else if !eqStr (msgType m) a.name || !a.reducer.isSet then state
  else applyReducer a.reducer state m

/-- A component mounted in a `Namespace`: an `Action`, or a child
`Namespace` with its own `defaultState` and mounted children.  A child
entry is `(location, _stateLocation[location], component)`, recording
the namespace's `components` map in insertion (mount) order together
with the parallel `_stateLocation` map. -/
inductive Component where
  | act : ActionData → Component
  | ns : Value → List (String × Option String × Component) → Component

mutual

/-- The `reduce` of a component: `Action.reduce` for actions; for a
`Namespace` (radical.ts:596-613), falsy state returns `defaultState`,
otherwise the state is shallow-copied and every mounted child is folded
over it in mount order. -/
def Component.reduce : Component → Value → Value → Value
  | .act a, state, m => a.reduce state m
  | .ns ds children, state, m =>
      if !truthy state then ds
      else Component.reduceChildren children (shallowCopy state) m

/-- The child loop of `Namespace.reduce`: for each mounted child with a
truthy state location `sl`, `newState[sl] = child.reduce(newState[sl],
action)`; for a child without one, `newState = child.reduce(newState,
action)`. -/
def Component.reduceChildren :
    List (String × Option String × Component) → Value → Value → Value
  | [], newState, _ => newState
  | (_, sl, c) :: rest, newState, m =>
      let newState' :=
        if strTruthy sl then
          setField newState (sl.getD "") (Component.reduce c (getField newState (sl.getD "")) m)
        else Component.reduce c newState m
      Component.reduceChildren rest newState' m

end

/-- The abstract collection capability `ICollection` (radical.ts:619-623):
`get`, `set` and `merge` over a state value. -/
structure CollOps where
  get : Value → String → Value
  set : Value → String → Value → Value
  merge : Value → Value → Value

/-- The default `CollectionAction.reducer` (radical.ts:632-640):
`for (let key in action) if (key != "type") state = state.set(key,
action[key]); return state`. -/
def collectionDefaultReducer (ops : CollOps) (state action : Value) : Value :=
  match action with
  | .obj fs => fs.foldl (fun st kv => if kv.1 = "type" then st else ops.set st kv.1 kv.2) state
  | _ => state

/-- The method `CollectionNamespace.reduce` (radical.ts:671-687): falsy state
returns `defaultState`; otherwise the children (given as
`(location, stateLocation, reduce)` triples in mount order) are folded
directly over the collection state — `state = state.set(sl,
reducer(state.get(sl), action))` for a truthy state location, `state =
reducer(state, action)` otherwise — with no shallow copy, since the
collection's `set` returns a new value. -/
def collectionNamespaceReduce (ops : CollOps) (ds : Value)
    (children : List (String × Option String × (Value → Value → Value)))
    (state m : Value) : Value :=
  if !truthy state then ds
  else
    children.foldl
      (fun st child =>
        let sl := child.2.1
        let reducer := child.2.2
        if strTruthy sl then ops.set st (sl.getD "") (reducer (ops.get st (sl.getD "")) m)
        else reducer st m)
      state

/-- The `CollOps` instance realised by a plain JavaScript object held as
an association list: `get` is field lookup, `set` is field update,
`merge` copies the other object's fields in. -/
def objOps : CollOps where
  get := getField
  set := setField
  merge := fun a b =>
    match a, b with
    | .obj fs, .obj gs => .obj (copyInto fs gs)
    | _, _ => a

/-! ## The initiator / dispatch path -/

/-- The body of the default `Action.initiator` (radical.ts:353-362)
up to the dispatch: `let reduxAction = {}; for (key in data)
reduxAction[key] = data[key]; reduxAction["type"] = action.name` —
the `type` property is set after copying the data fields, so it always
holds the action's name. -/
def buildReduxAction (name : String) (data : Value) : Value :=
  setField (shallowCopy data) "type" (.str name)

/-- Calling a mounted action's accessor `ns[location](data)`: the bound
initiator builds the message, dispatches it to the resolved store
(modelled as the list of messages dispatched so far), and returns
`this`, which `mount` bound to the mounting namespace. -/
def callAction {α : Type} (parentNs : α) (name : String) (data : Value)
    (store : List Value) : List Value × α :=
  (store ++ [buildReduxAction name data], parentNs)

/-! ## Mount / unmount bookkeeping

`mount` and `unmount` mutate the namespace object itself: its
`components` and `_stateLocation` maps, the generated accessor
properties, its `defaultState`, and the mounted component's `parent`
back-reference and `name`.  We model one namespace together with a table
of component records indexed by identity (`Nat` ids standing for object
references). -/

/-- The mutable fields of a mounted component that `mount`/`unmount`
touch: whether it is an `Action`, whether its `parent` back-reference is
currently set to the namespace, its `name`, and its `defaultState`. -/
structure CompRec where
  isAction : Bool
  hasParent : Bool := false
  name : Option String := none
  defaultState : Value := .undefined
deriving Repr

/-- A generated accessor property `ns[location]`: for an `Action`,
`component.initiator.bind(this, component)` (denoting
`callAction ns (name of cid)`), for a child `Namespace` the component
itself. -/
inductive Accessor where
  | boundInitiator : Nat → Accessor
  | componentRef : Nat → Accessor
deriving Repr, DecidableEq

/-- A namespace instance: its `name`, the identity-indexed component
table, the `components` map, the `_stateLocation` map, the generated
accessor properties, and its `defaultState`. -/
structure NS where
  name : String
  comps : List (Nat × CompRec)
  components : List (String × Nat) := []
  stateLocations : List (String × Option String) := []
  accessors : List (String × Accessor) := []
  defaultState : Value := .obj []

/-- Lookup of a component record by identity. -/
def NS.compRec (w : NS) (cid : Nat) : CompRec :=
  (w.comps.lookup cid).getD ⟨false, false, none, .undefined⟩

/-- Update of a component record by identity (mutation of the component
object itself). -/
def NS.updateComp (w : NS) (cid : Nat) (f : CompRec → CompRec) : NS :=
  { w with comps := w.comps.map fun e => (e.1, if e.1 = cid then f e.2 else e.2) }

/-- The method `Namespace.updateDefaultState` (radical.ts:501-510): with a truthy
state location the child's default state is stored under that key;
otherwise its fields are copied into `defaultState` one by one. -/
def NS.updateDefaultState (w : NS) (sl : Option String) (state : Value) : NS :=
  if strTruthy sl then
    { w with defaultState := setField w.defaultState (sl.getD "") state }
  else
    match state with
    | .obj fs => { w with defaultState := fs.foldl (fun d kv => setField d kv.1 kv.2) w.defaultState }
    | _ => w

/-- The method `Namespace.mount` (radical.ts:526-541): the mounted component is the
object `c` with identity `cid` (theorems tie the two together through
the component table).  `mount` sets the component's `parent`; registers
it in `components` only if the location is free; for an `Action` records
the state location as given, installs the bound initiator accessor and
names the component if unnamed; for a child `Namespace` defaults the
state location to the mount location and installs the component itself
as accessor; finally merges a truthy `defaultState` at the recorded
state location. -/
def NS.mount (w : NS) (location : String) (cid : Nat) (c : CompRec)
    (stateLocation : Option String) : NS :=
  let w1 := w.updateComp cid fun cc => { cc with hasParent := true }
  let w2 :=
    if (getA w1.components location).isNone then
      { w1 with components := setA w1.components location cid }
    else w1
  let w3 :=
    if c.isAction then
      let wa := { w2 with
        stateLocations := setA w2.stateLocations location stateLocation,
        accessors := setA w2.accessors location (.boundInitiator cid) }
      if !strTruthy c.name then
        wa.updateComp cid fun cc => { cc with name := some (wa.name ++ ": " ++ location) }
      else wa
    else
      { w2 with
        stateLocations := setA w2.stateLocations location
          (if strTruthy stateLocation then stateLocation else some location),
        accessors := setA w2.accessors location (.componentRef cid) }
  if truthy c.defaultState then
    w3.updateDefaultState ((getA w3.stateLocations location).getD none) c.defaultState
  else w3

/-- The method `Namespace.unmount` (radical.ts:556-562): reads
`this.components[location]` and sets its `parent` to `undefined` — a
`TypeError` (modelled as `none`) when nothing is mounted there — then
deletes the `components` entry, the `defaultState` entry *at the mount
location*, and the accessor.  The `_stateLocation` entry is not removed. -/
def NS.unmount (w : NS) (location : String) : Option NS :=
  match getA w.components location with
  | none => none
  | some cid =>
      let w1 := w.updateComp cid fun c => { c with hasParent := false }
      some { w1 with
        components := delA w1.components location,
        defaultState := delField w1.defaultState location,
        accessors := delA w1.accessors location }

/-! ## The heap model of the default reducer

The default `Action.reducer` writes `state[key] = action[key]` on the
state object it receives — an in-place mutation invisible to the pure
`Value` model.  Here objects live in a heap indexed by references. -/

/-- A heap value: a primitive or a reference to a heap object. -/
inductive HVal where
  | undef : HVal
  | num : Int → HVal
  | str : String → HVal
  | ref : Nat → HVal
deriving Repr, DecidableEq

/-- A heap object: its fields. -/
abbrev HObj := List (String × HVal)

/-- A heap: objects indexed by reference. -/
abbrev Heap := List HObj

/-- Assignment `target[k] = v` on the object at reference `r`. -/
def heapSet (h : Heap) (r : Nat) (k : String) (v : HVal) : Heap :=
  h.set r (setA (h.getD r []) k v)

/-- The default `Action.reducer` (radical.ts:372-380) at heap level:
`for (let key in action) if (key != "type") state[key] = action[key];
return state` — each field is written onto the state object in the heap,
and the very same reference is returned. -/
def defaultReducerH (h : Heap) (state : Nat) (action : HObj) : Heap × HVal :=
  (action.foldl (fun hp kv => if kv.1 = "type" then hp else heapSet hp state kv.1 kv.2) h,
   .ref state)

/-! ## Auxiliary definitions used by the statements -/

/-- One step of the `Namespace.reduce` child loop, acting on the working
state `ws`: a child with a truthy state location has its slice replaced
by `child.reduce(ws[sl], m)`; a child without one replaces the entire
working state by `child.reduce(ws, m)`. -/
def nsStep (m : Value) (ws : Value) (child : String × Option String × Component) : Value :=
  if strTruthy child.2.1 then
    setField ws (child.2.1.getD "")
      (Component.reduce child.2.2 (getField ws (child.2.1.getD "")) m)
  else Component.reduce child.2.2 ws m

/-- The children of a plain `Namespace` viewed as the
`(location, stateLocation, reduce)` triples a `CollectionNamespace`
folds over. -/
def toCollChildren (cs : List (String × Option String × Component)) :
    List (String × Option String × (Value → Value → Value)) :=
  cs.map fun c => (c.1, c.2.1, Component.reduce c.2.2)

/-- A well-formed object state: an object whose keys are distinct (as
the keys of every JavaScript object are). -/
def isWFobj : Value → Bool
  | .obj fs => decide (fs.map Prod.fst).Nodup
  | _ => false

/-- An `Action` component fixture named `"inc"` with default state
`{value: 0}`. -/
def testComp : CompRec :=
  { isAction := true, name := some "inc", defaultState := .obj [("value", .num 0)] }

/-- A namespace fixture holding `testComp` (id 0) in its component
table, not yet mounted. -/
def testW : NS :=
  { name := "N", comps := [(0, testComp)] }

/-- A child-`Namespace` component fixture (`isAction = false`), used to
probe mount conflicts with a non-Action second component. -/
def testCompB : CompRec :=
  { isAction := false, name := some "other", defaultState := .obj [("z", .num 7)] }

/-- A namespace fixture holding the action `testComp` (id 0) and the
child namespace `testCompB` (id 1). -/
def testW2 : NS :=
  { name := "N", comps := [(0, testComp), (1, testCompB)] }

/-! ## Association-list lemmas -/

theorem getA_setA_self {α : Type} (l : List (String × α)) (k : String) (v : α) :
    getA (setA l k v) k = some v := by
  induction l with
  | nil => simp [setA, getA]
  | cons kv rest ih =>
      obtain ⟨k', v'⟩ := kv
      by_cases h : k' = k
      · simp [setA, getA, h]
      · simp [setA, getA, h, ih]

theorem getA_setA_ne {α : Type} (l : List (String × α)) (k k' : String) (v : α)
    (h : k' ≠ k) : getA (setA l k v) k' = getA l k' := by
  induction l with
  | nil =>
      have hne : ¬k = k' := fun hh => h hh.symm
      simp [setA, getA, hne]
  | cons kv rest ih =>
      obtain ⟨k₀, v₀⟩ := kv
      by_cases h₀ : k₀ = k
      · subst h₀
        have hne : ¬k₀ = k' := fun hh => h hh.symm
        simp [setA, getA, hne]
      · simp only [setA, if_neg h₀, getA]
        by_cases h₁ : k₀ = k'
        · simp [h₁]
        · simp [h₁, ih]

theorem setA_append_of_getA_none {α : Type} (l : List (String × α)) (k : String) (v : α)
    (h : getA l k = none) : setA l k v = l ++ [(k, v)] := by
  induction l with
  | nil => simp [setA]
  | cons kv rest ih =>
      obtain ⟨k₀, v₀⟩ := kv
      by_cases h₀ : k₀ = k
      · simp [getA, h₀] at h
      · simp only [getA, if_neg h₀] at h
        simp [setA, h₀, ih h]

theorem mem_keys_setA {α : Type} (l : List (String × α)) (k k' : String) (v : α) :
    k' ∈ (setA l k v).map Prod.fst ↔ k' ∈ l.map Prod.fst ∨ k' = k := by
  induction l with
  | nil => simp [setA]
  | cons kv rest ih =>
      obtain ⟨k₀, v₀⟩ := kv
      by_cases h₀ : k₀ = k
      · subst h₀
        by_cases h₁ : k' = k₀ <;> simp [setA, h₁]
      · simp [setA, h₀, ih]
        tauto

theorem nodup_keys_setA {α : Type} (l : List (String × α)) (k : String) (v : α)
    (h : (l.map Prod.fst).Nodup) : ((setA l k v).map Prod.fst).Nodup := by
  induction l with
  | nil => simp [setA]
  | cons kv rest ih =>
      obtain ⟨k₀, v₀⟩ := kv
      simp only [List.map_cons, List.nodup_cons] at h
      by_cases h₀ : k₀ = k
      · subst h₀
        simpa [setA, List.nodup_cons] using h
      · simp only [setA, if_neg h₀, List.map_cons, List.nodup_cons]
        refine ⟨?_, ih h.2⟩
        intro hmem
        rcases (mem_keys_setA rest k k₀ v).1 hmem with hin | hk
        · exact h.1 hin
        · exact h₀ hk

theorem getA_delA_self {α : Type} (l : List (String × α)) (k : String) :
    getA (delA l k) k = none := by
  induction l with
  | nil => simp [delA, getA]
  | cons kv rest ih =>
      obtain ⟨k₀, v₀⟩ := kv
      by_cases h₀ : k₀ = k
      · simpa [delA, h₀] using ih
      · simpa [delA, getA, h₀] using ih

theorem getA_append {α : Type} (l₁ l₂ : List (String × α)) (k : String) :
    getA (l₁ ++ l₂) k = ((getA l₁ k).rec (getA l₂ k) fun v => some v) := by
  induction l₁ with
  | nil => simp [getA]
  | cons kv rest ih =>
      obtain ⟨k₀, v₀⟩ := kv
      by_cases h₀ : k₀ = k <;> simp [getA, h₀, ih]

/-! ## Shallow-copy lemmas -/

theorem copyInto_eq_append (src : List (String × Value)) :
    ∀ dst : List (String × Value), (src.map Prod.fst).Nodup →
    (∀ k ∈ src.map Prod.fst, getA dst k = none) →
    copyInto dst src = dst ++ src := by
  induction src with
  | nil => intro dst _ _; simp [copyInto]
  | cons kv rest ih =>
      intro dst hnd hfresh
      obtain ⟨k, v⟩ := kv
      simp only [List.map_cons, List.nodup_cons] at hnd
      have hdst : getA dst k = none := hfresh k (by simp)
      have step : copyInto dst ((k, v) :: rest) = copyInto (dst ++ [(k, v)]) rest := by
        simp [copyInto, setA_append_of_getA_none dst k v hdst]
      rw [step, ih (dst ++ [(k, v)]) hnd.2]
      · simp
      · intro k' hk'
        rw [getA_append]
        have : getA dst k' = none := hfresh k' (by simp [hk'])
        have hne : k ≠ k' := fun hh => hnd.1 (hh ▸ hk')
        simp [this, getA, hne]

theorem copyInto_nil (fs : List (String × Value)) (h : (fs.map Prod.fst).Nodup) :
    copyInto [] fs = fs := by
  have := copyInto_eq_append fs [] h (by intro k _; simp [getA])
  simpa using this

theorem shallowCopy_of_wf (s : Value) (h : isWFobj s = true) : shallowCopy s = s := by
  cases s with
  | obj fs =>
      simp only [isWFobj, decide_eq_true_eq] at h
      simp [shallowCopy, copyInto_nil fs h]
  | undefined => simp [isWFobj] at h
  | null => simp [isWFobj] at h
  | bool b => simp [isWFobj] at h
  | num n => simp [isWFobj] at h
  | str s => simp [isWFobj] at h

/-! ## Characterizations of the reduce loops -/

theorem reduceChildren_eq_foldl (cs : List (String × Option String × Component)) :
    ∀ (st m : Value), Component.reduceChildren cs st m = cs.foldl (nsStep m) st := by
  induction cs with
  | nil => intro st m; rw [Component.reduceChildren]; simp
  | cons c rest ih =>
      intro st m
      obtain ⟨loc, sl, comp⟩ := c
      rw [Component.reduceChildren]
      simp only [List.foldl_cons]
      rw [ih]
      rfl

theorem collectionNamespaceReduce_toColl (ds : Value)
    (cs : List (String × Option String × Component)) (st m : Value) (hst : truthy st = true) :
    collectionNamespaceReduce objOps ds (toCollChildren cs) st m =
      cs.foldl (nsStep m) st := by
  unfold collectionNamespaceReduce toCollChildren
  rw [hst]
  simp only [Bool.not_true, Bool.false_eq_true, if_false, List.foldl_map]
  rfl

/-! ## Heap lemmas -/

theorem list_getD_set_self {α : Type} (l : List α) (i : Nat) (x d : α) (h : i < l.length) :
    (l.set i x).getD i d = x := by
  simp [List.getD_eq_getElem?_getD, List.getElem?_set_self h]

theorem list_getD_set_ne {α : Type} (l : List α) (i j : Nat) (x d : α) (h : j ≠ i) :
    (l.set i x).getD j d = l.getD j d := by
  simp [List.getD_eq_getElem?_getD, List.getElem?_set_ne (Ne.symm h)]

theorem heapSet_getD_self (h : Heap) (r : Nat) (k : String) (v : HVal) (hr : r < h.length) :
    (heapSet h r k v).getD r [] = setA (h.getD r []) k v :=
  list_getD_set_self h r _ [] hr

theorem heapSet_getD_ne (h : Heap) (r r' : Nat) (k : String) (v : HVal) (hne : r' ≠ r) :
    (heapSet h r k v).getD r' [] = h.getD r' [] :=
  list_getD_set_ne h r r' _ [] hne

theorem heapSet_length (h : Heap) (r : Nat) (k : String) (v : HVal) :
    (heapSet h r k v).length = h.length := by
  simp [heapSet]

/-! ## Component-table lemmas -/

theorem lookup_map_update {β : Type} (l : List (Nat × β)) (cid cid' : Nat) (f : β → β) :
    ((l.map fun e => (e.1, if e.1 = cid then f e.2 else e.2)).lookup cid') =
      if cid' = cid then (l.lookup cid').map f else l.lookup cid' := by
  induction l with
  | nil => simp [List.lookup]
  | cons e rest ih =>
      obtain ⟨i, c⟩ := e
      by_cases hc : cid' = i
      · subst hc
        by_cases hi : cid' = cid <;> simp [List.lookup, hi]
      · have hbeq : (cid' == i) = false := by simpa using hc
        simp [List.lookup, hbeq, ih]

theorem compRec_updateComp (w : NS) (cid cid' : Nat) (f : CompRec → CompRec) :
    (w.updateComp cid f).compRec cid' =
      if cid' = cid then
        ((w.comps.lookup cid').map f).getD ⟨false, false, none, .undefined⟩
      else w.compRec cid' := by
  unfold NS.updateComp NS.compRec
  dsimp only
  rw [lookup_map_update]
  by_cases hc : cid' = cid <;> simp [hc]

theorem compRec_updateComp_self (w : NS) (cid : Nat) (f : CompRec → CompRec)
    (h : (w.comps.lookup cid).isSome) :
    (w.updateComp cid f).compRec cid = f (w.compRec cid) := by
  rw [compRec_updateComp, if_pos rfl]
  cases hl : w.comps.lookup cid with
  | none => rw [hl] at h; simp at h
  | some c => unfold NS.compRec; rw [hl]; simp

theorem compRec_updateComp_isAction (w : NS) (cid : Nat) (b : Bool) :
    ((w.updateComp cid fun c => { c with hasParent := b }).compRec cid).isAction =
      (w.compRec cid).isAction := by
  rw [compRec_updateComp, if_pos rfl]
  cases hl : w.comps.lookup cid with
  | none => unfold NS.compRec; rw [hl]; simp
  | some c => unfold NS.compRec; rw [hl]; simp

/-! ## Equation lemmas and well-formedness preservation -/

theorem reduce_act_eq (a : ActionData) (s m : Value) :
    Component.reduce (.act a) s m = a.reduce s m := by
  rw [Component.reduce]

theorem reduce_ns_eq (ds : Value) (cs : List (String × Option String × Component))
    (s m : Value) :
    Component.reduce (.ns ds cs) s m =
      if !truthy s then ds else Component.reduceChildren cs (shallowCopy s) m := by
  rw [Component.reduce]

theorem getField_setField_self (fs : List (String × Value)) (k : String) (v : Value) :
    getField (setField (.obj fs) k v) k = v := by
  simp [getField, setField, getA_setA_self]

theorem getField_setField_ne (fs : List (String × Value)) (k k' : String) (v : Value)
    (h : k' ≠ k) : getField (setField (.obj fs) k v) k' = getField (.obj fs) k' := by
  simp [getField, setField, getA_setA_ne fs k k' v h]

theorem isWFobj_setField (fs : List (String × Value)) (k : String) (v : Value)
    (h : isWFobj (.obj fs) = true) : isWFobj (setField (.obj fs) k v) = true := by
  simp only [isWFobj, setField, decide_eq_true_eq] at *
  exact nodup_keys_setA fs k v h

theorem truthy_of_wf (s : Value) (h : isWFobj s = true) : truthy s = true := by
  cases s <;> simp_all [isWFobj, truthy]

theorem wf_reduceChildren (cs : List (String × Option String × Component))
    (hsl : ∀ c ∈ cs, strTruthy c.2.1 = true) :
    ∀ (st m : Value), isWFobj st = true →
      isWFobj (Component.reduceChildren cs st m) = true := by
  induction cs with
  | nil =>
      intro st m h
      rw [Component.reduceChildren]; exact h
  | cons c rest ih =>
      intro st m h
      obtain ⟨loc, sl, comp⟩ := c
      have hc : strTruthy sl = true := hsl (loc, sl, comp) (by simp)
      rw [Component.reduceChildren]
      simp only [hc, if_true]
      apply ih (fun c hc' => hsl c (List.mem_cons_of_mem _ hc'))
      cases st with
      | obj fs => exact isWFobj_setField fs _ _ h
      | undefined => simp [isWFobj] at h
      | null => simp [isWFobj] at h
      | bool b => simp [isWFobj] at h
      | num n => simp [isWFobj] at h
      | str s => simp [isWFobj] at h

theorem wf_preserved_of_sliced (ds : Value) (cs : List (String × Option String × Component))
    (hsl : ∀ c ∈ cs, strTruthy c.2.1 = true) :
    ∀ (t m : Value), isWFobj t = true →
      isWFobj (Component.reduce (.ns ds cs) t m) = true := by
  intro t m hwf
  rw [reduce_ns_eq, truthy_of_wf t hwf]
  simp only [Bool.not_true, Bool.false_eq_true, if_false]
  rw [shallowCopy_of_wf t hwf]
  exact wf_reduceChildren cs hsl t m hwf

/-! ## Claim theorems -/

/-- C1: for every `Namespace` with mounted children, every truthy
(non-absent) state `s` and message `m`, `ns.reduce(s, m)` first builds a
shallow copy of `s` and then folds over the mounted children in mount
order with `nsStep`: a child with a truthy state location has the
working state's value at that key replaced by
`child.reduce(workingState[key], m)`, a child without one replaces the
entire working state by `child.reduce(workingState, m)`; the final
working state is returned. -/
theorem namespace_reduce_copy_fold (ds : Value)
    (cs : List (String × Option String × Component)) (s m : Value)
    (hs : truthy s = true) :
    Component.reduce (.ns ds cs) s m = cs.foldl (nsStep m) (shallowCopy s) := by
  rw [reduce_ns_eq, hs]
  simp [reduceChildren_eq_foldl]

/-- Witness for C1: a namespace with a sliced child action "A" (state
location "k") and a whole-state child action "B", on state {k: 0}. -/
theorem namespace_reduce_copy_fold_witness :
    truthy (.obj [("k", .num 0)]) = true ∧
    Component.reduce
      (.ns (.obj [])
        [("a", some "k", .act ⟨"A", .obj [], .single defaultReducer⟩),
         ("b", none, .act ⟨"B", .obj [], .single defaultReducer⟩)])
      (.obj [("k", .num 0)]) (.obj [("type", .str "A"), ("v", .num 1)]) =
      [("a", some "k", Component.act ⟨"A", .obj [], .single defaultReducer⟩),
       ("b", none, Component.act ⟨"B", .obj [], .single defaultReducer⟩)].foldl
        (nsStep (.obj [("type", .str "A"), ("v", .num 1)]))
        (shallowCopy (.obj [("k", .num 0)])) :=
  ⟨rfl, namespace_reduce_copy_fold _ _ _ _ rfl⟩

/-- C2 counterexample: the claim asserts that for ANY state `s`,
`reduce(s, {type:"B"})` with `B ≠ "A"` returns `s` unchanged; but for
the falsy state `null`, an action named "A" with default state `{d:1}`
returns `{d:1}`, not `null`. -/
theorem action_reduce_not_identity_on_falsy :
    ActionData.reduce ⟨"A", .obj [("d", .num 1)], .single defaultReducer⟩ .null
      (.obj [("type", .str "B")]) = .obj [("d", .num 1)] ∧
    Value.obj [("d", Value.num 1)] ≠ Value.null :=
  ⟨rfl, fun h => Value.noConfusion h⟩

/-- C2 amended: for every truthy (initialized) state `s`, the
action's reducer is applied by `a.reduce(s, m)` exactly when `m.type`
equals `a.name` (and a reducer is configured); otherwise `a.reduce(s,
m)` returns `s` unchanged. -/
theorem action_reduce_type_gated (a : ActionData) (s m : Value)
    (hs : truthy s = true) :
    a.reduce s m =
      if eqStr (msgType m) a.name && a.reducer.isSet then
        applyReducer a.reducer s m
      else s := by
  unfold ActionData.reduce
  rw [hs]
  cases hm : eqStr (msgType m) a.name <;> cases hr : a.reducer.isSet <;> simp [hm, hr]

/-- Witness for C2 (amended): a non-matching message leaves `{x:1}`
unchanged. -/
theorem action_reduce_type_gated_witness :
    ActionData.reduce ⟨"A", .obj [], .single defaultReducer⟩ (.obj [("x", .num 1)])
      (.obj [("type", .str "B")]) = .obj [("x", .num 1)] :=
  (action_reduce_type_gated ⟨"A", .obj [], .single defaultReducer⟩
    (.obj [("x", .num 1)]) (.obj [("type", .str "B")]) rfl).trans rfl

/-- C5: a namespace with a single action mounted at state location
"counter": reducing a well-formed object state changes nothing outside
the key "counter", and the value at "counter" becomes the action's
reduction of the old "counter" slice. -/
theorem sliced_action_frame (a : ActionData) (loc : String) (ds : Value)
    (fs : List (String × Value)) (m : Value) (hwf : isWFobj (.obj fs) = true)
    (k : String) (hk : k ≠ "counter") :
    getField (Component.reduce (.ns ds [(loc, some "counter", .act a)]) (.obj fs) m) k =
      getField (.obj fs) k ∧
    getField (Component.reduce (.ns ds [(loc, some "counter", .act a)]) (.obj fs) m)
        "counter" =
      a.reduce (getField (.obj fs) "counter") m := by
  have hred : Component.reduce (.ns ds [(loc, some "counter", .act a)]) (.obj fs) m =
      setField (.obj fs) "counter" (a.reduce (getField (.obj fs) "counter") m) := by
    rw [reduce_ns_eq]
    have ht : truthy (.obj fs) = true := rfl
    rw [ht]
    simp only [Bool.not_true, Bool.false_eq_true, if_false]
    rw [shallowCopy_of_wf _ hwf]
    rw [Component.reduceChildren, Component.reduceChildren]
    simp [strTruthy, reduce_act_eq]
  rw [hred]
  exact ⟨getField_setField_ne fs "counter" k _ hk, getField_setField_self fs "counter" _⟩

/-- Witness for C5: state `{greeting:"hi", counter:{value:0}}`, message
`{type:"N: inc", value:5}`: `greeting` is untouched and `counter`
becomes the action's reduction of the old `counter` slice. -/
theorem sliced_action_frame_witness :
    isWFobj (.obj [("greeting", .str "hi"), ("counter", .obj [("value", .num 0)])]) = true ∧
    getField
      (Component.reduce
        (.ns (.obj [])
          [("inc", some "counter", .act ⟨"N: inc", .obj [], .single defaultReducer⟩)])
        (.obj [("greeting", .str "hi"), ("counter", .obj [("value", .num 0)])])
        (.obj [("type", .str "N: inc"), ("value", .num 5)])) "greeting" =
      .str "hi" :=
  ⟨by decide,
   (sliced_action_frame ⟨"N: inc", .obj [], .single defaultReducer⟩ "inc" (.obj [])
      [("greeting", .str "hi"), ("counter", .obj [("value", .num 0)])]
      (.obj [("type", .str "N: inc"), ("value", .num 5)]) (by decide)
      "greeting" (by decide)).1.trans rfl⟩

/-- C9: for `Action.reduce`, `Namespace.reduce` and
`CollectionNamespace.reduce` alike, `reduce(state, message)` returns the
component's `defaultState` whenever `state` is falsy — and `null`,
`undefined`, `0`, `""` and `false` are all falsy — not only when the
state is absent; so a legitimately falsy state slice is replaced by the
default state on the next reduction. -/
theorem reduce_falsy_returns_defaultState (a : ActionData) (ds : Value)
    (cs : List (String × Option String × Component)) (ops : CollOps)
    (rs : List (String × Option String × (Value → Value → Value)))
    (s m : Value) (hs : truthy s = false) :
    (truthy .null = false ∧ truthy .undefined = false ∧ truthy (.num 0) = false ∧
      truthy (.str "") = false ∧ truthy (.bool false) = false) ∧
    a.reduce s m = a.defaultState ∧
    Component.reduce (.ns ds cs) s m = ds ∧
    collectionNamespaceReduce ops ds rs s m = ds := by
  refine ⟨⟨rfl, rfl, by decide, by decide, rfl⟩, ?_, ?_, ?_⟩
  · unfold ActionData.reduce; simp [hs]
  · rw [reduce_ns_eq]; simp [hs]
  · unfold collectionNamespaceReduce; simp [hs]

/-- Witness for C9: the falsy state `0` is replaced by the default
state `{d:1}`. -/
theorem reduce_falsy_returns_defaultState_witness :
    ActionData.reduce ⟨"A", .obj [("d", .num 1)], .single defaultReducer⟩ (.num 0)
      (.obj []) = .obj [("d", .num 1)] :=
  (reduce_falsy_returns_defaultState ⟨"A", .obj [("d", .num 1)], .single defaultReducer⟩
    (.obj []) [] objOps [] (.num 0) (.obj []) (by decide)).2.1

/-- The heap fold of the default reducer: only the state object changes;
it accumulates exactly the non-`type` field writes; the heap keeps its
length. -/
theorem fold_heapSet (action : HObj) :
    ∀ (h : Heap) (r : Nat), r < h.length →
      (action.foldl (fun hp kv => if kv.1 = "type" then hp else heapSet hp r kv.1 kv.2)
          h).getD r [] =
        action.foldl (fun o kv => if kv.1 = "type" then o else setA o kv.1 kv.2)
          (h.getD r []) ∧
      (action.foldl (fun hp kv => if kv.1 = "type" then hp else heapSet hp r kv.1 kv.2)
          h).length = h.length ∧
      ∀ r', r' ≠ r →
        (action.foldl (fun hp kv => if kv.1 = "type" then hp else heapSet hp r kv.1 kv.2)
            h).getD r' [] = h.getD r' [] := by
  induction action with
  | nil => intro h r hr; exact ⟨rfl, rfl, fun _ _ => rfl⟩
  | cons kv rest ih =>
      intro h r hr
      by_cases ht : kv.1 = "type"
      · simp only [List.foldl_cons, if_pos ht]
        exact ih h r hr
      · simp only [List.foldl_cons, if_neg ht]
        have hr' : r < (heapSet h r kv.1 kv.2).length := by
          rw [heapSet_length]; exact hr
        obtain ⟨h1, h2, h3⟩ := ih (heapSet h r kv.1 kv.2) r hr'
        refine ⟨?_, ?_, ?_⟩
        · rw [h1, heapSet_getD_self h r kv.1 kv.2 hr]
        · rw [h2, heapSet_length]
        · intro r' hne
          rw [h3 r' hne, heapSet_getD_ne h r r' kv.1 kv.2 hne]

/-- C3 counterexample: the default reducer at heap level, applied to
the state object `{x:1}` (reference 0) and the message
`{type:"A", y:2}`: the value yielded is indeed `{x:1, y:2}`, but it is
the very same reference that came in, and the heap object behind the
input state now holds `{x:1, y:2}` — the input state was mutated, not
left unchanged, and no copy was made. -/
theorem default_reducer_mutates_input :
    (defaultReducerH [[("x", .num 1)]] 0 [("type", .str "A"), ("y", .num 2)]).1 =
      [[("x", .num 1), ("y", .num 2)]] ∧
    (defaultReducerH [[("x", .num 1)]] 0 [("type", .str "A"), ("y", .num 2)]).2 = .ref 0 ∧
    ([[("x", HVal.num 1), ("y", HVal.num 2)]] : Heap) ≠ [[("x", HVal.num 1)]] ∧
    ActionData.reduce ⟨"A", .obj [], .single defaultReducer⟩ (.obj [("x", .num 1)])
      (.obj [("type", .str "A"), ("y", .num 2)]) = .obj [("x", .num 1), ("y", .num 2)] :=
  ⟨rfl, rfl, by decide, rfl⟩

/-- C3 amended: an Action with the default reducer, on an
initialized state and a matching message, copies every message field
except `type` onto the state object *itself* and returns that same
object: the same reference comes back, the object behind it has the
non-`type` fields written in, and every other heap object is untouched.
`reduce({x:1}, {type:"A", y:2})` yields `{x:1, y:2}`, but the input
state is mutated in place rather than preserved. -/
theorem default_reducer_writes_in_place (h : Heap) (r : Nat) (action : HObj)
    (hr : r < h.length) :
    (defaultReducerH h r action).2 = .ref r ∧
    (defaultReducerH h r action).1.getD r [] =
      action.foldl (fun o kv => if kv.1 = "type" then o else setA o kv.1 kv.2)
        (h.getD r []) ∧
    ∀ r', r' ≠ r → (defaultReducerH h r action).1.getD r' [] = h.getD r' [] :=
  ⟨rfl, (fold_heapSet action h r hr).1, (fold_heapSet action h r hr).2.2⟩

/-- Witness for C3 (amended): the `{x:1}` / `{type:"A", y:2}` instance. -/
theorem default_reducer_writes_in_place_witness :
    (defaultReducerH [[("x", .num 1)]] 0 [("type", .str "A"), ("y", .num 2)]).2 =
      .ref 0 ∧
    (defaultReducerH [[("x", .num 1)]] 0 [("type", .str "A"), ("y", .num 2)]).1.getD 0 [] =
      [(("type" : String), HVal.str "A"), (("y" : String), HVal.num 2)].foldl
        (fun o kv => if kv.1 = "type" then o else setA o kv.1 kv.2)
        (([[("x", HVal.num 1)]] : Heap).getD 0 []) :=
  ⟨(default_reducer_writes_in_place [[("x", .num 1)]] 0
      [("type", .str "A"), ("y", .num 2)] (by decide)).1,
   (default_reducer_writes_in_place [[("x", .num 1)]] 0
      [("type", .str "A"), ("y", .num 2)] (by decide)).2.1⟩

/-- C10: `unmount(location)` fails (the implementation sets
`.parent` on the missing components-map entry, a `TypeError`, modelled
as `none`) exactly when no component is mounted at `location`; it
succeeds under the precondition that the location is mounted. -/
theorem unmount_errors_iff_unmounted (w : NS) (location : String) :
    w.unmount location = none ↔ getA w.components location = none := by
  unfold NS.unmount
  cases h : getA w.components location <;> simp

/-- C7 counterexample: mount the action `"inc"` (default state
`{value:0}`) at location `"inc"` with state location `"counter"`, then
`unmount("inc")`: the default-state contribution is still present under
`"counter"` — `unmount` deletes `defaultState["inc"]`, the mount
location, not the recorded state location. -/
theorem unmount_misses_relocated_default :
    ((testW.mount "inc" 0 testComp (some "counter")).unmount "inc").map
        (fun w => getField w.defaultState "counter") =
      some (.obj [("value", .num 0)]) ∧
    Value.obj [("value", Value.num 0)] ≠ Value.undefined :=
  ⟨rfl, fun h => Value.noConfusion h⟩

theorem getField_delField_self (v : Value) (k : String) :
    getField (delField v k) k = .undefined := by
  cases v <;> simp [delField, getField, getA_delA_self]

/-- C7 amended: for a component mounted at `location`,
`unmount(location)` clears its parent back-reference, removes it from
the components map, removes the generated accessor, and deletes the
`defaultState` entry at the *mount* location — which removes the
default-state contribution only when the recorded state location equals
the mount location; a contribution recorded under a different state
location remains in `defaultState`. -/
theorem unmount_clears_mount_location (w : NS) (location : String) (cid : Nat)
    (hm : getA w.components location = some cid)
    (hc : (w.comps.lookup cid).isSome) :
    ∃ w2, w.unmount location = some w2 ∧
      getA w2.components location = none ∧
      getA w2.accessors location = none ∧
      getField w2.defaultState location = .undefined ∧
      (w2.compRec cid).hasParent = false := by
  have hu : w.unmount location = some
      { w.updateComp cid (fun c => { c with hasParent := false }) with
        components :=
          delA (w.updateComp cid fun c => { c with hasParent := false }).components location,
        defaultState :=
          delField (w.updateComp cid fun c => { c with hasParent := false }).defaultState
            location,
        accessors :=
          delA (w.updateComp cid fun c => { c with hasParent := false }).accessors
            location } := by
    unfold NS.unmount
    rw [hm]
  refine ⟨_, hu, ?_, ?_, ?_, ?_⟩
  · exact getA_delA_self _ _
  · exact getA_delA_self _ _
  · exact getField_delField_self _ _
  · show ((w.updateComp cid fun c => { c with hasParent := false }).compRec cid).hasParent =
      false
    rw [compRec_updateComp_self w cid _ hc]

theorem updateDefaultState_accessors (w : NS) (sl : Option String) (st : Value) :
    (w.updateDefaultState sl st).accessors = w.accessors := by
  unfold NS.updateDefaultState
  by_cases h : strTruthy sl = true
  · rw [if_pos h]
  · rw [if_neg h]; cases st <;> rfl

theorem updateDefaultState_stateLocations (w : NS) (sl : Option String) (st : Value) :
    (w.updateDefaultState sl st).stateLocations = w.stateLocations := by
  unfold NS.updateDefaultState
  by_cases h : strTruthy sl = true
  · rw [if_pos h]
  · rw [if_neg h]; cases st <;> rfl

theorem updateDefaultState_components (w : NS) (sl : Option String) (st : Value) :
    (w.updateDefaultState sl st).components = w.components := by
  unfold NS.updateDefaultState
  by_cases h : strTruthy sl = true
  · rw [if_pos h]
  · rw [if_neg h]; cases st <;> rfl

theorem updateDefaultState_comps (w : NS) (sl : Option String) (st : Value) :
    (w.updateDefaultState sl st).comps = w.comps := by
  unfold NS.updateDefaultState
  by_cases h : strTruthy sl = true
  · rw [if_pos h]
  · rw [if_neg h]; cases st <;> rfl

theorem compRec_congr (w w2 : NS) (cid : Nat) (h : w.comps = w2.comps) :
    w.compRec cid = w2.compRec cid := by
  unfold NS.compRec
  rw [h]

theorem updateComp_components (w : NS) (cid : Nat) (f : CompRec → CompRec) :
    (w.updateComp cid f).components = w.components := rfl

theorem updateComp_accessors (w : NS) (cid : Nat) (f : CompRec → CompRec) :
    (w.updateComp cid f).accessors = w.accessors := rfl

theorem updateComp_stateLocations (w : NS) (cid : Nat) (f : CompRec → CompRec) :
    (w.updateComp cid f).stateLocations = w.stateLocations := rfl

theorem updateComp_name (w : NS) (cid : Nat) (f : CompRec → CompRec) :
    (w.updateComp cid f).name = w.name := rfl

theorem updateComp_defaultState (w : NS) (cid : Nat) (f : CompRec → CompRec) :
    (w.updateComp cid f).defaultState = w.defaultState := rfl

theorem lookup_updateComp_isSome (w : NS) (cid : Nat) (f : CompRec → CompRec)
    (h : (w.comps.lookup cid).isSome) :
    ((w.updateComp cid f).comps.lookup cid).isSome := by
  unfold NS.updateComp
  dsimp only
  rw [lookup_map_update, if_pos rfl]
  cases hl : w.comps.lookup cid with
  | none => rw [hl] at h; simp at h
  | some c0 => simp

theorem compRec_hasParent_after_name (X : NS) (cid : Nat) (n : Option String)
    (h : (X.comps.lookup cid).isSome) :
    ((X.updateComp cid fun cc => { cc with name := n }).compRec cid).hasParent =
      (X.compRec cid).hasParent := by
  rw [compRec_updateComp_self X cid _ h]

/-- Mounting an `Action` component `c` (identity `cid`): the accessor at
the mount location becomes the bound initiator, the state location is
recorded as given, the components map gains the component only if the
location was free, and the component's parent back-reference is set. -/
theorem mount_action_fields (w : NS) (location : String) (cid : Nat) (c : CompRec)
    (sl : Option String) (hact : c.isAction = true)
    (hB : (w.comps.lookup cid).isSome) :
    (w.mount location cid c sl).accessors =
      setA w.accessors location (.boundInitiator cid) ∧
    (w.mount location cid c sl).stateLocations = setA w.stateLocations location sl ∧
    (w.mount location cid c sl).components =
      (if (getA w.components location).isNone then setA w.components location cid
       else w.components) ∧
    ((w.mount location cid c sl).compRec cid).hasParent = true := by
  have hc1 : (w.updateComp cid fun cc => { cc with hasParent := true }).compRec cid =
      { w.compRec cid with hasParent := true } :=
    compRec_updateComp_self w cid _ hB
  unfold NS.mount
  rw [hact]
  dsimp only
  by_cases hfree : (getA w.components location).isNone = true <;>
    by_cases hn : strTruthy c.name = true <;>
      by_cases hd : truthy c.defaultState = true <;>
        simp only [updateComp_components, updateComp_accessors, updateComp_stateLocations,
          updateComp_name, updateComp_defaultState, hfree, hn, hd, Bool.not_true,
          Bool.not_false, if_true, if_false, Bool.false_eq_true,
          updateDefaultState_accessors, updateDefaultState_stateLocations,
          updateDefaultState_components, eq_self_iff_true] <;>
        refine ⟨by trivial, by trivial, by trivial, ?_⟩
  all_goals try rw [compRec_congr _ _ cid (updateDefaultState_comps _ _ _)]
  all_goals
    first
    | exact congrArg CompRec.hasParent hc1
    | (rw [compRec_hasParent_after_name]
       exact congrArg CompRec.hasParent hc1
       exact lookup_updateComp_isSome w cid (fun cc => { cc with hasParent := true }) hB)

/-- Mounting a child `Namespace` component `c` (identity `cid`,
`isAction = false`): the accessor at the mount location becomes the
component itself, the recorded state location defaults to the mount
location when the given one is falsy, the components map gains the
component only if the location was free, and the component's parent
back-reference is set. -/
theorem mount_ns_fields (w : NS) (location : String) (cid : Nat) (c : CompRec)
    (sl : Option String) (hact : c.isAction = false)
    (hB : (w.comps.lookup cid).isSome) :
    (w.mount location cid c sl).accessors =
      setA w.accessors location (.componentRef cid) ∧
    (w.mount location cid c sl).stateLocations =
      setA w.stateLocations location (if strTruthy sl then sl else some location) ∧
    (w.mount location cid c sl).components =
      (if (getA w.components location).isNone then setA w.components location cid
       else w.components) ∧
    ((w.mount location cid c sl).compRec cid).hasParent = true := by
  have hc1 : (w.updateComp cid fun cc => { cc with hasParent := true }).compRec cid =
      { w.compRec cid with hasParent := true } :=
    compRec_updateComp_self w cid _ hB
  unfold NS.mount
  rw [hact]
  by_cases hfree : (getA w.components location).isNone = true <;>
    by_cases hd : truthy c.defaultState = true <;>
      simp only [updateComp_components, updateComp_accessors, updateComp_stateLocations,
        updateComp_name, updateComp_defaultState, hfree, hd, Bool.not_true,
        Bool.not_false, if_true, if_false, Bool.false_eq_true,
        updateDefaultState_accessors, updateDefaultState_stateLocations,
        updateDefaultState_components, eq_self_iff_true] <;>
      refine ⟨by trivial, by trivial, by trivial, ?_⟩
  all_goals try rw [compRec_congr _ _ cid (updateDefaultState_comps _ _ _)]
  all_goals exact congrArg CompRec.hasParent hc1

/-- Witness for C7 (amended): unmounting `"inc"` from the fixture after
mounting it there. -/
theorem unmount_clears_mount_location_witness :
    ((testW.mount "inc" 0 testComp (some "counter")).unmount "inc").map
        (fun w2 => (getA w2.components "inc", getA w2.accessors "inc",
          getField w2.defaultState "inc", (w2.compRec 0).hasParent)) =
      some (none, none, .undefined, false) := by
  obtain ⟨w2, hu, h1, h2, h3, h4⟩ :=
    unmount_clears_mount_location (testW.mount "inc" 0 testComp (some "counter")) "inc" 0
      (by decide) (by decide)
  rw [hu]
  simp [h1, h2, h3, h4]

/-- C6: mounting any second component B (Action or child Namespace) at
a location already occupied by component A leaves A registered in the
components map (first registration wins), while the derived accessor at
that location (the bound initiator for an Action, the component itself
for a Namespace), the recorded state location (as given for an Action,
defaulted to the mount location for a Namespace when falsy), and B's
parent back-reference are all updated to reflect B. -/
theorem mount_conflict_first_wins (w : NS) (location : String) (cidA cidB : Nat)
    (cB : CompRec) (sl : Option String)
    (hA : getA w.components location = some cidA)
    (hB : (w.comps.lookup cidB).isSome) :
    getA (w.mount location cidB cB sl).components location = some cidA ∧
    getA (w.mount location cidB cB sl).stateLocations location =
      some (if cB.isAction then sl else if strTruthy sl then sl else some location) ∧
    getA (w.mount location cidB cB sl).accessors location =
      some (if cB.isAction then Accessor.boundInitiator cidB
            else Accessor.componentRef cidB) ∧
    ((w.mount location cidB cB sl).compRec cidB).hasParent = true := by
  cases hact : cB.isAction with
  | true =>
      obtain ⟨ha, hsl2, hcomp, hpar⟩ := mount_action_fields w location cidB cB sl hact hB
      refine ⟨?_, ?_, ?_, hpar⟩
      · rw [hcomp]
        simp [hA]
      · rw [hsl2]
        simp [hact, getA_setA_self]
      · rw [ha]
        simp [hact, getA_setA_self]
  | false =>
      obtain ⟨ha, hsl2, hcomp, hpar⟩ := mount_ns_fields w location cidB cB sl hact hB
      refine ⟨?_, ?_, ?_, hpar⟩
      · rw [hcomp]
        simp [hA]
      · rw [hsl2]
        simp [hact, getA_setA_self]
      · rw [ha]
        simp [hact, getA_setA_self]

/-- Witness for C6: the action `testComp` (id 0) holds location "inc";
mounting the child namespace `testCompB` (id 1) there keeps id 0 in the
components map but updates state location, accessor (the component
itself) and parent back-reference to `testCompB`. -/
theorem mount_conflict_first_wins_witness :
    getA ((testW2.mount "inc" 0 testComp (some "counter")).mount "inc" 1 testCompB
        (some "alt")).components "inc" = some 0 ∧
    getA ((testW2.mount "inc" 0 testComp (some "counter")).mount "inc" 1 testCompB
        (some "alt")).stateLocations "inc" = some (some "alt") ∧
    getA ((testW2.mount "inc" 0 testComp (some "counter")).mount "inc" 1 testCompB
        (some "alt")).accessors "inc" = some (.componentRef 1) ∧
    (((testW2.mount "inc" 0 testComp (some "counter")).mount "inc" 1 testCompB
        (some "alt")).compRec 1).hasParent = true :=
  mount_conflict_first_wins (testW2.mount "inc" 0 testComp (some "counter")) "inc" 0 1
    testCompB (some "alt") (by decide) (by decide)

/-- C4: calling a mounted Action's callable interface with a data
object having no `type` field dispatches through the resolved store a
message carrying exactly the data's fields with `type` stamped with the
Action's name, and the call returns the parent Namespace; and `mount`
installs exactly this bound initiator as the accessor at the mount
location. -/
theorem action_call_dispatches_and_chains {α : Type} (p : α) (name : String)
    (fs : List (String × Value)) (store : List Value)
    (hnd : (fs.map Prod.fst).Nodup) (hty : getA fs "type" = none)
    (w : NS) (location : String) (cid : Nat) (c : CompRec) (sl : Option String)
    (hact : c.isAction = true) (hB : (w.comps.lookup cid).isSome) :
    callAction p name (.obj fs) store =
      (store ++ [.obj (fs ++ [("type", .str name)])], p) ∧
    getA (w.mount location cid c sl).accessors location =
      some (.boundInitiator cid) := by
  constructor
  · unfold callAction buildReduxAction
    rw [shallowCopy_of_wf (.obj fs) (by simpa [isWFobj] using hnd)]
    show (store ++ [Value.obj (setA fs "type" (.str name))], p) = _
    rw [setA_append_of_getA_none fs "type" (.str name) hty]
  · obtain ⟨ha, _, _, _⟩ := mount_action_fields w location cid c sl hact hB
    rw [ha]
    exact getA_setA_self _ _ _

/-- Witness for C4: calling the mounted "inc" action with
`{value: 5}`. -/
theorem action_call_dispatches_and_chains_witness :
    callAction 42 "N: inc" (.obj [("value", .num 5)]) [] =
      ([.obj [("value", .num 5), ("type", .str "N: inc")]], 42) ∧
    getA (testW.mount "inc" 0 testComp (some "counter")).accessors "inc" =
      some (.boundInitiator 0) :=
  action_call_dispatches_and_chains 42 "N: inc" [("value", .num 5)] []
    (by decide) rfl testW "inc" 0 testComp (some "counter") rfl (by decide)

/-- One reduction step of a `CollectionNamespace` over the plain-object
collection agrees with the plain `Namespace` reduction on well-formed
object states. -/
theorem coll_eq_plain_step (ds : Value) (cs : List (String × Option String × Component))
    (s m : Value) (hwf : isWFobj s = true) :
    collectionNamespaceReduce objOps ds (toCollChildren cs) s m =
      Component.reduce (.ns ds cs) s m := by
  have ht := truthy_of_wf s hwf
  rw [collectionNamespaceReduce_toColl ds cs s m ht, reduce_ns_eq, ht]
  simp only [Bool.not_true, Bool.false_eq_true, if_false]
  rw [shallowCopy_of_wf s hwf, reduceChildren_eq_foldl]

/-- C8: for equivalent configurations (the same children in the same
mount order with the same state locations and default states, the
collection side folding the plain children's reduce functions over the
object-backed collection `objOps`) and every sequence of messages, the
`CollectionNamespace`/`CollectionAction` reduction produces state
transitions identical to the plain `Namespace`/`Action` reduction: the
default `CollectionAction` reducer over `objOps` coincides with the
default `Action` reducer, and reducing any message sequence from a
well-formed object state (well-formedness being preserved) yields
equal states. -/
theorem collection_parity (ds : Value) (cs : List (String × Option String × Component))
    (s : Value) (msgs : List Value) (hwf : isWFobj s = true)
    (hpres : ∀ (t m : Value), isWFobj t = true →
      isWFobj (Component.reduce (.ns ds cs) t m) = true) :
    (∀ (st a : Value), collectionDefaultReducer objOps st a = defaultReducer st a) ∧
    msgs.foldl (collectionNamespaceReduce objOps ds (toCollChildren cs)) s =
      msgs.foldl (Component.reduce (.ns ds cs)) s := by
  have main : ∀ (ms : List Value) (t : Value), isWFobj t = true →
      ms.foldl (collectionNamespaceReduce objOps ds (toCollChildren cs)) t =
        ms.foldl (Component.reduce (.ns ds cs)) t := by
    intro ms
    induction ms with
    | nil => intro t _; rfl
    | cons m rest ih =>
        intro t hwt
        simp only [List.foldl_cons]
        rw [coll_eq_plain_step ds cs t m hwt]
        exact ih _ (hpres t m hwt)
  exact ⟨fun st a => rfl, main msgs s hwf⟩

/-- Witness for C8: one sliced child action, state `{k: {}}`, one
message. -/
theorem collection_parity_witness :
    [Value.obj [("type", .str "A"), ("v", .num 1)]].foldl
        (collectionNamespaceReduce objOps (.obj [])
          (toCollChildren [("a", some "k", .act ⟨"A", .obj [], .single defaultReducer⟩)]))
        (.obj [("k", .obj [])]) =
      [Value.obj [("type", .str "A"), ("v", .num 1)]].foldl
        (Component.reduce
          (.ns (.obj []) [("a", some "k", .act ⟨"A", .obj [], .single defaultReducer⟩)]))
        (.obj [("k", .obj [])]) :=
  (collection_parity (.obj []) [("a", some "k", .act ⟨"A", .obj [], .single defaultReducer⟩)]
    (.obj [("k", .obj [])]) [Value.obj [("type", .str "A"), ("v", .num 1)]] (by decide)
    (wf_preserved_of_sliced _ _ (by
      intro c hc
      rw [List.mem_singleton] at hc
      subst hc
      rfl))).2

end Radical
